import Mathlib

/-
Shallow embedding of the icon-accessor generator in src/macros/src/lib.rs
(crate iced_fonts_macros).  The generator parses a font, enumerates the
codepoints of the first Unicode cmap subtable, derives a sanitized
identifier for each glyph, deduplicates identifiers first-wins, and
assembles an output module holding one accessor entry per surviving glyph
together with a COUNT constant and an optional advanced_text sub-module.

The external font-parsing library (ttf-parser) is modelled by the `Face`
structure: `body` only consumes the cmap table, `glyph_index` and
`glyph_name`, so a face is exactly that interface.  Rust panics
(`expect` on parse, `unwrap` on the cmap table) are modelled as an
`Except` error; the two fatal conditions carry the spec's names.
-/

namespace IcedFonts

/-- Shaping mode selected once per generation pass: `generate_icon_functions`
passes "basic", `generate_icon_advanced_functions` passes "advanced". -/
inductive Shaping where
  | Basic
  | Advanced
deriving DecidableEq, Repr

/-- List-level model of Rust `str::replace` with a single-character pattern:
every occurrence of `t` is replaced by the characters of `r`. -/
def repl (t : Char) (r : List Char) (l : List Char) : List Char :=
  l.flatMap (fun c => if c = t then r else [c])

/-- Chained replaces of lib.rs lines 104-115, on character lists:
`-`, then the digits 0 to 9 in order, each replaced by its word. -/
def substL (l : List Char) : List Char :=
  repl '9' "nine".data (repl '8' "eight".data (repl '7' "seven".data
    (repl '6' "six".data (repl '5' "five".data (repl '4' "four".data
    (repl '3' "three".data (repl '2' "two".data (repl '1' "one".data
    (repl '0' "zero".data (repl '-' "_".data l))))))))))

/-- String form of the substitution chain applied to a raw glyph name. -/
def substituted_name (raw : String) : String :=
  String.mk (substL raw.data)

/-- Full renaming of lib.rs lines 104-120: the substitution chain followed
by the Material-font edge case mapping a lone underscore to "underscore". -/
def processed_name (raw : String) : String :=
  let s := substituted_name raw
  if s = "_" then "underscore" else s

/-- Disallowed characters of the match arm at lib.rs lines 126-128.
Characters that are awkward as literals are written by code point:
96 backquote, 34 double quote, 39 apostrophe, 123 and 125 curly braces,
92 backslash. -/
def disallowedChars : List Char :=
  ['+', '-', '*', '/', '@', '!', '#', '$', '%', '^', '&', '(', ')',
   '=', '~', Char.ofNat 96, ';', ':', Char.ofNat 34, Char.ofNat 39,
   ',', '<', '>', '?', '.', ' ', '[', ']', Char.ofNat 123,
   Char.ofNat 125, '|', Char.ofNat 92]

/-- Scan of lib.rs lines 124-131: true when some character of the
processed name is in the disallowed set, in which case the glyph is
skipped via `continue`. -/
def hasIllegal (s : String) : Bool :=
  s.data.any (fun c => disallowedChars.contains c)

/-- Per-glyph sanitization outcome: the processed name when it passes the
disallowed-character scan, `none` when the glyph is skipped. -/
def sanitize (raw : String) : Option String :=
  let name := processed_name raw
  if hasIllegal name then none else some name

/-- Model of one cmap subtable: whether `is_unicode()` holds, and the
codepoint values (u32) yielded by `codepoints` in enumeration order. -/
structure Subtable where
  is_unicode : Bool
  codepoints : List Nat
deriving DecidableEq, Repr

/-- Model of the cmap table: its subtables in table order. -/
structure CmapTable where
  subtables : List Subtable
deriving DecidableEq, Repr

/-- Model of a parsed `ttf_parser::Face`, restricted to the interface the
generator uses: the optional cmap table, codepoint-to-glyph lookup and
glyph-to-name lookup. -/
structure Face where
  cmap : Option CmapTable
  glyph_index : Nat → Option Nat
  glyph_name : Nat → Option String

/-- Valid Unicode scalar values, the success condition of
`char::try_from(u32)` at lib.rs line 82: below the surrogate range or
between it and 0x10FFFF. -/
def isValidScalar (n : Nat) : Bool :=
  n < 0xD800 || (0xE000 ≤ n && n ≤ 0x10FFFF)

/-- Codepoint collection of lib.rs lines 71-86: the codepoints of the
first Unicode subtable, restricted to valid scalar values; empty when no
Unicode subtable exists (the `if let` is simply skipped). -/
def all_codepoints (face : Face) : List Nat :=
  match face.cmap with
  | none => []
  | some cm =>
    match cm.subtables.find? (fun s => s.is_unicode) with
    | none => []
    | some st => st.codepoints.filter isValidScalar

/-- Name lookup with default of lib.rs line 101:
`face.glyph_name(glyph_id).unwrap_or("unnamed")`. -/
def raw_name_of (face : Face) (gid : Nat) : String :=
  (face.glyph_name gid).getD "unnamed"

/-- One surviving accessor: the generator emits, per kept glyph, a widget
function and an advanced function sharing the identifier, codepoint, raw
name and shaping; both are determined by this record. -/
structure AccessorEntry where
  name : String
  codepoint : Nat
  raw_name : String
  shaping : Shaping
deriving DecidableEq, Repr

/-- Mutable state of the generation loop at lib.rs lines 88-91: the
emitted fragments (one entry standing for both the widget and the
advanced fragment of a glyph), the `duplicates` HashMap modelled as an
association list where insertion prepends (lookup sees the newest
binding, matching HashMap overwrite), and the `count` counter. -/
structure GenState where
  entries : List AccessorEntry
  duplicates : List (String × Nat)
  count : Nat
deriving DecidableEq, Repr

/-- Loop body of lib.rs lines 99-213 for a single codepoint: skip when no
glyph is assigned; otherwise default the name, sanitize, skip on a
disallowed character, then first-wins deduplicate, emitting fragments and
incrementing the count only for a name seen for the first time. -/
def process_codepoint (face : Face) (shaping : Shaping) (st : GenState) (c : Nat) :
    GenState :=
  match face.glyph_index c with
  | none => st
  | some glyph_id =>
    let raw := raw_name_of face glyph_id
    match sanitize raw with
    | none => st
    | some name =>
      match st.duplicates.lookup name with
      | some amount => { st with duplicates := (name, amount + 1) :: st.duplicates }
      | none =>
        { entries := st.entries ++ [⟨name, c, raw, shaping⟩]
          duplicates := (name, 1) :: st.duplicates
          count := st.count + 1 }

/-- Whole generation loop over a codepoint list, from the empty state. -/
def run_glyphs (face : Face) (shaping : Shaping) (cs : List Nat) : GenState :=
  cs.foldl (process_codepoint face shaping) ⟨[], [], 0⟩

/-- Fatal failures of the generation pass: `expect("Failed to parse
font")` at lib.rs line 69, and `cmap.unwrap()` at line 75.  The spec
names them MalformedFont and MissingCharacterMap. -/
inductive GenError where
  | MalformedFont
  | MissingCharacterMap
deriving DecidableEq, Repr

/-- Assembled output of lib.rs lines 246-268: the COUNT constant, the
widget fragments in emission order, and the advanced_text sub-module
(present exactly when the advanced_text cargo feature is on, lib.rs
line 219) holding the advanced fragments. -/
structure OutputModule where
  count : Nat
  entries : List AccessorEntry
  advanced_text : Option (List AccessorEntry)
deriving DecidableEq, Repr

/-- Generation pass of lib.rs `body`: `parsed` is the result of
`Face::parse` (none means the bytes failed to parse), `shaping` the mode
string of the entry point, `advanced_text_feature` the advanced_text
cargo feature of the macro crate. -/
def body (parsed : Option Face) (shaping : Shaping) (advanced_text_feature : Bool) :
    Except GenError OutputModule :=
  match parsed with
  | none => .error .MalformedFont
  | some face =>
    match face.cmap with
    | none => .error .MissingCharacterMap
    | some _ =>
      let final := run_glyphs face shaping (all_codepoints face)
      .ok { count := final.count
            entries := final.entries
            advanced_text :=
              if advanced_text_feature then some final.entries else none }

/-- Entry point of lib.rs line 49: shaping "basic". -/
def generate_icon_functions (parsed : Option Face) (advanced_text_feature : Bool) :
    Except GenError OutputModule :=
  body parsed Shaping.Basic advanced_text_feature

/-- Entry point of lib.rs line 55: shaping "advanced". -/
def generate_icon_advanced_functions (parsed : Option Face)
    (advanced_text_feature : Bool) : Except GenError OutputModule :=
  body parsed Shaping.Advanced advanced_text_feature

/-- Character-wise view of the substitution chain: hyphen to underscore,
each digit to its word, anything else unchanged. -/
def expandChar (c : Char) : List Char :=
  if c = '-' then "_".data
  else if c = '0' then "zero".data
  else if c = '1' then "one".data
  else if c = '2' then "two".data
  else if c = '3' then "three".data
  else if c = '4' then "four".data
  else if c = '5' then "five".data
  else if c = '6' then "six".data
  else if c = '7' then "seven".data
  else if c = '8' then "eight".data
  else if c = '9' then "nine".data
  else [c]

/-- The ten ASCII digit characters. -/
def digitChars : List Char :=
  ['0', '1', '2', '3', '4', '5', '6', '7', '8', '9']

/-- Survivor view of one codepoint: the raw and canonical name of its
glyph when the codepoint has a glyph whose processed name passes the
disallowed-character scan, `none` when the loop skips it. -/
def survivor (face : Face) (c : Nat) : Option (String × String) :=
  match face.glyph_index c with
  | none => none
  | some glyph_id =>
    match sanitize (raw_name_of face glyph_id) with
    | none => none
    | some name => some (raw_name_of face glyph_id, name)

/-- Survivors of a codepoint list, in enumeration order, as
(codepoint, raw name, canonical name) triples. -/
def survivors (face : Face) (cs : List Nat) : List (Nat × String × String) :=
  cs.filterMap (fun c => (survivor face c).map (fun p => (c, p.1, p.2)))

/-- First-wins deduplication on survivor triples, keyed by the canonical
name, starting from a list of already-claimed names. -/
def firstWins : List (Nat × String × String) → List String → List (Nat × String × String)
  | [], _ => []
  | p :: rest, seen =>
    if seen.contains p.2.2 then firstWins rest seen
    else p :: firstWins rest (p.2.2 :: seen)

/-- Accessor entry determined by a survivor triple and the pass shaping. -/
def entryOf (sh : Shaping) (p : Nat × String × String) : AccessorEntry :=
  ⟨p.2.2, p.1, p.2.1, sh⟩

/-- Occurrences of a canonical name among survivor triples. -/
def occCount (n : String) (l : List (Nat × String × String)) : Nat :=
  l.countP (fun p => p.2.2 == n)

/-- Counter arithmetic of the duplicates map: starting value (if any)
plus the number of occurrences processed. -/
def bump : Option Nat → Nat → Option Nat
  | r, 0 => r
  | some a, k + 1 => some (a + (k + 1))
  | none, k + 1 => some (k + 1)

/-- Test face whose two codepoints both map to glyphs named "star". -/
def starFace : Face :=
  { cmap := some (CmapTable.mk [Subtable.mk true [100, 101]])
    glyph_index := fun c => some c
    glyph_name := fun _ => some "star" }

/-- Test face whose glyphs have no native name. -/
def unnamedFace : Face :=
  { cmap := some (CmapTable.mk [Subtable.mk true [65, 66]])
    glyph_index := fun c => some c
    glyph_name := fun _ => none }

/-- Test face whose cmap table has a single subtable that is not a
Unicode subtable. -/
def nonUnicodeFace : Face :=
  { cmap := some (CmapTable.mk [Subtable.mk false [65]])
    glyph_index := fun c => some c
    glyph_name := fun _ => some "a" }

/-- Test face without any cmap table. -/
def noCmapFace : Face :=
  { cmap := none
    glyph_index := fun _ => none
    glyph_name := fun _ => none }

/-- Test face with a single glyph named "file.txt". -/
def fileFace : Face :=
  { cmap := some (CmapTable.mk [Subtable.mk true [7]])
    glyph_index := fun _ => some 7
    glyph_name := fun _ => some "file.txt" }

/-- Rewrite of an accessor entry to a given shaping mode. -/
def set_shaping (sh : Shaping) (e : AccessorEntry) : AccessorEntry :=
  AccessorEntry.mk e.name e.codepoint e.raw_name sh

/-- Rewrite of a whole output module to a given shaping mode. -/
def reshape (sh : Shaping) (m : OutputModule) : OutputModule :=
  OutputModule.mk m.count (m.entries.map (set_shaping sh))
    (m.advanced_text.map (fun l => l.map (set_shaping sh)))

lemma repl_append (t : Char) (r a b : List Char) :
    repl t r (a ++ b) = repl t r a ++ repl t r b := by
  simp [repl]

lemma substL_append (a b : List Char) :
    substL (a ++ b) = substL a ++ substL b := by
  simp [substL, repl_append]

lemma substL_single (c : Char) : substL [c] = expandChar c := by
  by_cases h0 : c = '-'
  · subst h0; decide
  by_cases h1 : c = '0'
  · subst h1; decide
  by_cases h2 : c = '1'
  · subst h2; decide
  by_cases h3 : c = '2'
  · subst h3; decide
  by_cases h4 : c = '3'
  · subst h4; decide
  by_cases h5 : c = '4'
  · subst h5; decide
  by_cases h6 : c = '5'
  · subst h6; decide
  by_cases h7 : c = '6'
  · subst h7; decide
  by_cases h8 : c = '7'
  · subst h8; decide
  by_cases h9 : c = '8'
  · subst h9; decide
  by_cases h10 : c = '9'
  · subst h10; decide
  simp [substL, repl, expandChar, h0, h1, h2, h3, h4, h5, h6, h7, h8, h9, h10]

lemma substL_eq_flatMap (l : List Char) : substL l = l.flatMap expandChar := by
  induction l with
  | nil => rfl
  | cons c l ih =>
    have h : substL (c :: l) = substL [c] ++ substL l := substL_append [c] l
    simp [h, substL_single, ih]

lemma substituted_name_data (raw : String) :
    (substituted_name raw).data = raw.data.flatMap expandChar := by
  simp [substituted_name, substL_eq_flatMap]

lemma alpha_ne (c d : Char) (h : c.isAlpha = true) (hd : d.isAlpha = false) :
    c ≠ d := by
  rintro rfl
  rw [h] at hd
  exact Bool.noConfusion hd

lemma expandChar_eq_self (c : Char) (h : c.isAlpha = true ∨ c = '_') :
    expandChar c = [c] := by
  have hs : c ≠ '-' ∧ c ≠ '0' ∧ c ≠ '1' ∧ c ≠ '2' ∧ c ≠ '3' ∧ c ≠ '4' ∧
      c ≠ '5' ∧ c ≠ '6' ∧ c ≠ '7' ∧ c ≠ '8' ∧ c ≠ '9' := by
    rcases h with h | rfl
    · exact ⟨alpha_ne c _ h (by decide), alpha_ne c _ h (by decide),
        alpha_ne c _ h (by decide), alpha_ne c _ h (by decide),
        alpha_ne c _ h (by decide), alpha_ne c _ h (by decide),
        alpha_ne c _ h (by decide), alpha_ne c _ h (by decide),
        alpha_ne c _ h (by decide), alpha_ne c _ h (by decide),
        alpha_ne c _ h (by decide)⟩
    · decide
  obtain ⟨h0, h1, h2, h3, h4, h5, h6, h7, h8, h9, h10⟩ := hs
  simp [expandChar, h0, h1, h2, h3, h4, h5, h6, h7, h8, h9, h10]

lemma flatMap_expandChar_id (l : List Char) (h : ∀ c ∈ l, expandChar c = [c]) :
    l.flatMap expandChar = l := by
  induction l with
  | nil => rfl
  | cons c l ih =>
    simp only [List.flatMap_cons, h c (by simp)]
    simp [ih (fun d hd => h d (by simp [hd]))]

lemma substituted_of_plain (s : String) (h : ∀ c ∈ s.data, c.isAlpha = true ∨ c = '_') :
    substituted_name s = s := by
  have hd : (substituted_name s).data = s.data := by
    rw [substituted_name_data]
    exact flatMap_expandChar_id s.data (fun c hc => expandChar_eq_self c (h c hc))
  exact String.ext hd

lemma contains_iff_mem_chars (l : List Char) (c : Char) :
    l.contains c = true ↔ c ∈ l := by
  simp [List.contains, List.elem_iff]

lemma not_disallowed_of_plain (c : Char) (h : c.isAlpha = true ∨ c = '_') :
    disallowedChars.contains c = false := by
  cases hb : disallowedChars.contains c with
  | false => rfl
  | true =>
    exfalso
    have hmem : c ∈ disallowedChars := (contains_iff_mem_chars _ c).mp hb
    rcases h with h | rfl
    · simp only [disallowedChars] at hmem
      fin_cases hmem <;> exact absurd h (by decide)
    · revert hmem; decide

/-- Claim C5 counterexample: the raw name "_" consists only of letters and
underscores, has no digits and no hyphens, yet sanitization changes it to
"underscore" rather than returning it unchanged. -/
theorem c5_counterexample :
    (∀ c ∈ ("_" : String).data, c.isAlpha = true ∨ c = '_') ∧
    sanitize "_" = some "underscore" ∧ ("underscore" : String) ≠ "_" :=
  ⟨by decide, by decide, by decide⟩

/-- Claim C5 (amended): for every glyph name containing only letters and
underscores, with no digits and no hyphens, and distinct from the single
underscore string, sanitization returns the name unchanged (it is kept
and not altered). -/
theorem c5_identity (s : String) (h : ∀ c ∈ s.data, c.isAlpha = true ∨ c = '_')
    (hne : s ≠ "_") : sanitize s = some s := by
  have hsub : substituted_name s = s := substituted_of_plain s h
  have hproc : processed_name s = s := by
    simp [processed_name, hsub, hne]
  have hil : hasIllegal s = false := by
    simp only [hasIllegal, List.any_eq_false]
    intro c hc
    rw [not_disallowed_of_plain c (h c hc)]
    decide
  simp [sanitize, hproc, hil]

/-- Claim C5 witness: the identity transform at the concrete name "abc". -/
theorem c5_identity_witness : sanitize "abc" = some "abc" :=
  c5_identity "abc" (by decide) (by decide)

/-- Claim C4: the substitution chain acts as an independent character-level
substitution (hyphens first, then each ASCII digit to its fixed English
word), and the raw name "1f600" sanitizes to "onefsixzerozero". -/
theorem c4_digit_substitution :
    (∀ raw : String, (substituted_name raw).data = raw.data.flatMap expandChar) ∧
    (expandChar '-' = "_".data ∧ expandChar '0' = "zero".data ∧
     expandChar '1' = "one".data ∧ expandChar '2' = "two".data ∧
     expandChar '3' = "three".data ∧ expandChar '4' = "four".data ∧
     expandChar '5' = "five".data ∧ expandChar '6' = "six".data ∧
     expandChar '7' = "seven".data ∧ expandChar '8' = "eight".data ∧
     expandChar '9' = "nine".data) ∧
    sanitize "1f600" = some "onefsixzerozero" :=
  ⟨substituted_name_data, by decide, by decide⟩

lemma printable_classify (c : Char) (h1 : 32 ≤ c.toNat) (h2 : c.toNat ≤ 126)
    (hd : disallowedChars.contains c = false) (hdig : c ∉ digitChars) :
    c.isAlpha = true ∨ c = '_' := by
  obtain ⟨n, hn1, hn2, rfl⟩ :
      ∃ n, 32 ≤ n ∧ n ≤ 126 ∧ c = Char.ofNat n :=
    ⟨c.toNat, h1, h2, (Char.ofNat_toNat c).symm⟩
  interval_cases n <;>
    first
      | decide
      | exact absurd hd (by decide)
      | exact absurd (by decide) hdig

lemma expandChar_mem (c d : Char) (h : d ∈ expandChar c) :
    d.isAlpha = true ∨ d = '_' ∨ (d = c ∧ c ∉ digitChars ∧ c ≠ '-') := by
  by_cases h0 : c = '-'
  · subst h0
    right; left
    simpa [expandChar] using h
  by_cases h1 : c = '0'
  · subst h1; left; simp [expandChar] at h
    rcases h with rfl | rfl | rfl | rfl <;> decide
  by_cases h2 : c = '1'
  · subst h2; left; simp [expandChar] at h
    rcases h with rfl | rfl | rfl <;> decide
  by_cases h3 : c = '2'
  · subst h3; left; simp [expandChar] at h
    rcases h with rfl | rfl | rfl <;> decide
  by_cases h4 : c = '3'
  · subst h4; left; simp [expandChar] at h
    rcases h with rfl | rfl | rfl | rfl <;> decide
  by_cases h5 : c = '4'
  · subst h5; left; simp [expandChar] at h
    rcases h with rfl | rfl | rfl | rfl <;> decide
  by_cases h6 : c = '5'
  · subst h6; left; simp [expandChar] at h
    rcases h with rfl | rfl | rfl | rfl <;> decide
  by_cases h7 : c = '6'
  · subst h7; left; simp [expandChar] at h
    rcases h with rfl | rfl | rfl <;> decide
  by_cases h8 : c = '7'
  · subst h8; left; simp [expandChar] at h
    rcases h with rfl | rfl | rfl | rfl | rfl <;> decide
  by_cases h9 : c = '8'
  · subst h9; left; simp [expandChar] at h
    rcases h with rfl | rfl | rfl | rfl | rfl <;> decide
  by_cases h10 : c = '9'
  · subst h10; left; simp [expandChar] at h
    rcases h with rfl | rfl | rfl | rfl <;> decide
  right; right
  have hd : d = c := by
    simpa [expandChar, h0, h1, h2, h3, h4, h5, h6, h7, h8, h9, h10] using h
  refine ⟨hd, ?_, h0⟩
  simp [digitChars, h1, h2, h3, h4, h5, h6, h7, h8, h9, h10]

lemma expandChar_ne_nil (c : Char) : expandChar c ≠ [] := by
  unfold expandChar
  repeat' split
  all_goals simp

lemma sanitize_eq_some (raw id : String) (h : sanitize raw = some id) :
    id = processed_name raw ∧ hasIllegal id = false := by
  unfold sanitize at h
  by_cases hil : hasIllegal (processed_name raw) = true
  · simp [hil] at h
  · simp only [Bool.not_eq_true] at hil
    simp [hil] at h
    exact ⟨h.symm, h ▸ hil⟩

/-- Claim C3 counterexample: an empty raw name survives sanitization with
an empty canonical identifier, and a raw name containing a tab character
(code point 9) survives with the tab still present, though a tab is
neither a letter nor an underscore. -/
theorem c3_counterexample :
    sanitize "" = some "" ∧ ("" : String).data = [] ∧
    sanitize (String.mk ['a', Char.ofNat 9]) = some (String.mk ['a', Char.ofNat 9]) ∧
    Char.ofNat 9 ∈ (String.mk ['a', Char.ofNat 9]).data ∧
    (Char.ofNat 9).isAlpha = false ∧ Char.ofNat 9 ≠ '_' :=
  ⟨by decide, rfl, by decide, by decide, by decide, by decide⟩

/-- Claim C3 (amended): for every nonempty raw glyph name consisting of
printable ASCII characters (code points 32 to 126) that survives
sanitization, the canonical identifier contains only letters and
underscores and is never empty; and any name equal to a single underscore
after substitution maps to the fixed literal word "underscore". -/
theorem c3_canonical_invariant :
    (∀ raw : String, raw.data ≠ [] →
      (∀ c ∈ raw.data, 32 ≤ c.toNat ∧ c.toNat ≤ 126) →
      ∀ id, sanitize raw = some id →
        id.data ≠ [] ∧ ∀ c ∈ id.data, c.isAlpha = true ∨ c = '_') ∧
    (∀ raw : String, substituted_name raw = "_" →
      processed_name raw = "underscore") := by
  constructor
  · intro raw hne hascii id hsan
    obtain ⟨hid, hil⟩ := sanitize_eq_some raw id hsan
    by_cases hu : substituted_name raw = "_"
    · have : id = "underscore" := by simp [hid, processed_name, hu]
      subst this
      exact ⟨by decide, by decide⟩
    · have hid2 : id = substituted_name raw := by
        simp [hid, processed_name, hu]
      have hdata : id.data = raw.data.flatMap expandChar := by
        rw [hid2, substituted_name_data]
      constructor
      · rw [hdata]
        cases hraw : raw.data with
        | nil => exact absurd hraw hne
        | cons c l =>
          simp only [List.flatMap_cons]
          intro hcontra
          exact expandChar_ne_nil c (List.append_eq_nil.mp hcontra).1
      · intro c hc
        have hcf : c ∈ raw.data.flatMap expandChar := hdata ▸ hc
        obtain ⟨a, ha, hca⟩ := List.mem_flatMap.mp hcf
        rcases expandChar_mem a c hca with h | h | ⟨rfl, hnd, hnh⟩
        · exact Or.inl h
        · exact Or.inr h
        · have hcd : disallowedChars.contains c = false := by
            have := (List.any_eq_false.mp hil) c hc
            cases hb : disallowedChars.contains c with
            | false => rfl
            | true => exact absurd hb this
          exact printable_classify c (hascii c ha).1 (hascii c ha).2 hcd hnd
  · intro raw h
    simp [processed_name, h]

/-- Claim C3 witness: the amended invariant evaluated at the raw name
"heart-fill", whose canonical identifier is "heart_fill". -/
theorem c3_canonical_invariant_witness :
    ("heart_fill" : String).data ≠ [] ∧
      ∀ c ∈ ("heart_fill" : String).data, c.isAlpha = true ∨ c = '_' :=
  c3_canonical_invariant.1 "heart-fill" (by decide) (by decide) "heart_fill" (by decide)

lemma process_codepoint_of_none (face : Face) (sh : Shaping) (st : GenState) (c : Nat)
    (h : survivor face c = none) : process_codepoint face sh st c = st := by
  unfold survivor at h
  cases hg : face.glyph_index c with
  | none => simp [process_codepoint, hg]
  | some glyph_id =>
    simp only [hg] at h
    cases hs : sanitize (raw_name_of face glyph_id) with
    | none => simp [process_codepoint, hg, hs]
    | some n => simp only [hs] at h; cases h

lemma process_codepoint_of_some (face : Face) (sh : Shaping) (st : GenState) (c : Nat)
    (p : String × String) (h : survivor face c = some p) :
    process_codepoint face sh st c =
      match st.duplicates.lookup p.2 with
      | some amount => { st with duplicates := (p.2, amount + 1) :: st.duplicates }
      | none =>
        { entries := st.entries ++ [⟨p.2, c, p.1, sh⟩]
          duplicates := (p.2, 1) :: st.duplicates
          count := st.count + 1 } := by
  unfold survivor at h
  cases hg : face.glyph_index c with
  | none => simp only [hg] at h; cases h
  | some glyph_id =>
    simp only [hg] at h
    cases hs : sanitize (raw_name_of face glyph_id) with
    | none => simp only [hs] at h; cases h
    | some n =>
      simp only [hs, Option.some.injEq] at h
      subst h
      simp [process_codepoint, hg, hs]

lemma survivors_cons_none (face : Face) (c : Nat) (cs : List Nat)
    (h : survivor face c = none) :
    survivors face (c :: cs) = survivors face cs := by
  simp [survivors, h]

lemma survivors_cons_some (face : Face) (c : Nat) (cs : List Nat) (p : String × String)
    (h : survivor face c = some p) :
    survivors face (c :: cs) = (c, p.1, p.2) :: survivors face cs := by
  simp [survivors, h]

lemma lookup_cons_beq (k n : String) (v : Nat) (l : List (String × Nat)) :
    ((k, v) :: l).lookup n = cond (n == k) (some v) (l.lookup n) := rfl

lemma contains_cons_beq (a n : String) (l : List String) :
    (a :: l).contains n = (n == a || l.contains n) := rfl

lemma firstWins_cons (x : Nat × String × String) (l : List (Nat × String × String))
    (seen : List String) :
    firstWins (x :: l) seen =
      if seen.contains x.2.2 then firstWins l seen
      else x :: firstWins l (x.2.2 :: seen) := rfl

lemma firstWins_cons_seen (x : Nat × String × String) (l : List (Nat × String × String))
    (seen : List String) (h : seen.contains x.2.2 = true) :
    firstWins (x :: l) seen = firstWins l seen := by
  rw [firstWins_cons, h]
  simp

lemma firstWins_cons_new (x : Nat × String × String) (l : List (Nat × String × String))
    (seen : List String) (h : seen.contains x.2.2 = false) :
    firstWins (x :: l) seen = x :: firstWins l (x.2.2 :: seen) := by
  rw [firstWins_cons, h]
  simp

lemma foldl_entries_spec (face : Face) (sh : Shaping) :
    ∀ (cs : List Nat) (st : GenState) (seen : List String),
      (∀ m : String, seen.contains m = (st.duplicates.lookup m).isSome) →
      (cs.foldl (process_codepoint face sh) st).entries =
        st.entries ++ (firstWins (survivors face cs) seen).map (entryOf sh) := by
  intro cs
  induction cs with
  | nil =>
    intro st seen hseen
    simp [survivors, firstWins]
  | cons c cs ih =>
    intro st seen hseen
    cases hs : survivor face c with
    | none =>
      rw [List.foldl_cons, process_codepoint_of_none face sh st c hs,
        survivors_cons_none face c cs hs]
      exact ih st seen hseen
    | some p =>
      rw [List.foldl_cons, process_codepoint_of_some face sh st c p hs,
        survivors_cons_some face c cs p hs]
      cases hc : seen.contains p.2 with
      | true =>
        have hlk : (st.duplicates.lookup p.2).isSome = true := by
          rw [← hseen p.2]; exact hc
        obtain ⟨amount, ha⟩ := Option.isSome_iff_exists.mp hlk
        simp only [ha]
        rw [firstWins_cons_seen _ _ _ hc]
        apply ih
        intro m
        show seen.contains m = (List.lookup m ((p.2, amount + 1) :: st.duplicates)).isSome
        rw [lookup_cons_beq]
        cases hm : (m == p.2) with
        | true =>
          rw [eq_of_beq hm, hc]
          rfl
        | false => exact hseen m
      | false =>
        have hlk : st.duplicates.lookup p.2 = none := by
          cases hl : st.duplicates.lookup p.2 with
          | none => rfl
          | some a =>
            have hx := hseen p.2
            rw [hc, hl] at hx
            cases hx
        simp only [hlk]
        rw [firstWins_cons_new _ _ _ hc]
        have hinv : ∀ m : String, (p.2 :: seen).contains m =
            (List.lookup m ((p.2, 1) :: st.duplicates)).isSome := by
          intro m
          rw [contains_cons_beq, lookup_cons_beq]
          cases hm : (m == p.2) with
          | true => rfl
          | false => exact hseen m
        have h2 := ih (GenState.mk (st.entries ++ [AccessorEntry.mk p.2 c p.1 sh])
          ((p.2, 1) :: st.duplicates) (st.count + 1)) (p.2 :: seen) hinv
        rw [h2]
        simp [entryOf]

lemma run_glyphs_entries (face : Face) (sh : Shaping) (cs : List Nat) :
    (run_glyphs face sh cs).entries =
      (firstWins (survivors face cs) []).map (entryOf sh) := by
  have h := foldl_entries_spec face sh cs ⟨[], [], 0⟩ [] (fun m => rfl)
  simpa [run_glyphs] using h

lemma bump_shift (a k : Nat) : bump (some (a + 1)) k = bump (some a) (k + 1) := by
  cases k with
  | zero => simp [bump]
  | succ k =>
    simp only [bump]
    exact congrArg some (by omega)

lemma bump_one (k : Nat) : bump (some 1) k = bump none (k + 1) := by
  cases k with
  | zero => simp [bump]
  | succ k =>
    simp only [bump]
    exact congrArg some (by omega)

lemma bump_none (k : Nat) : bump none k = if k = 0 then none else some k := by
  cases k <;> simp [bump]

lemma occCount_cons_eq (n : String) (x : Nat × String × String)
    (l : List (Nat × String × String)) (h : (x.2.2 == n) = true) :
    occCount n (x :: l) = occCount n l + 1 := by
  simp [occCount, List.countP_cons, h]

lemma occCount_cons_ne (n : String) (x : Nat × String × String)
    (l : List (Nat × String × String)) (h : (x.2.2 == n) = false) :
    occCount n (x :: l) = occCount n l := by
  simp [occCount, List.countP_cons, h]

lemma foldl_duplicates_spec (face : Face) (sh : Shaping) :
    ∀ (cs : List Nat) (st : GenState) (n : String),
      (cs.foldl (process_codepoint face sh) st).duplicates.lookup n =
        bump (st.duplicates.lookup n) (occCount n (survivors face cs)) := by
  intro cs
  induction cs with
  | nil =>
    intro st n
    simp [survivors, occCount, bump]
  | cons c cs ih =>
    intro st n
    cases hs : survivor face c with
    | none =>
      rw [List.foldl_cons, process_codepoint_of_none face sh st c hs,
        survivors_cons_none face c cs hs]
      exact ih st n
    | some p =>
      rw [List.foldl_cons, process_codepoint_of_some face sh st c p hs,
        survivors_cons_some face c cs p hs]
      cases hb : (p.2 == n) with
      | true =>
        have hocc : occCount n ((c, p.1, p.2) :: survivors face cs) =
            occCount n (survivors face cs) + 1 := occCount_cons_eq n _ _ hb
        rw [hocc, ← eq_of_beq hb]
        cases hl : st.duplicates.lookup p.2 with
        | some amount =>
          simp only [hl]
          rw [ih (GenState.mk st.entries ((p.2, amount + 1) :: st.duplicates) st.count) p.2]
          show bump (List.lookup p.2 ((p.2, amount + 1) :: st.duplicates)) _ = _
          rw [lookup_cons_beq, beq_self_eq_true]
          rw [show cond true (some (amount + 1)) (List.lookup p.2 st.duplicates) =
            some (amount + 1) from rfl]
          rw [bump_shift]
        | none =>
          simp only [hl]
          rw [ih (GenState.mk (st.entries ++ [AccessorEntry.mk p.2 c p.1 sh])
            ((p.2, 1) :: st.duplicates) (st.count + 1)) p.2]
          show bump (List.lookup p.2 ((p.2, 1) :: st.duplicates)) _ = _
          rw [lookup_cons_beq, beq_self_eq_true]
          rw [show cond true (some 1) (List.lookup p.2 st.duplicates) = some 1 from rfl]
          rw [bump_one]
      | false =>
        have hocc : occCount n ((c, p.1, p.2) :: survivors face cs) =
            occCount n (survivors face cs) := occCount_cons_ne n _ _ hb
        have hb2 : (n == p.2) = false := by
          cases hx : (n == p.2) with
          | true =>
            rw [eq_of_beq hx, BEq.refl] at hb
            cases hb
          | false => rfl
        rw [hocc]
        cases hl : st.duplicates.lookup p.2 with
        | some amount =>
          simp only [hl]
          rw [ih (GenState.mk st.entries ((p.2, amount + 1) :: st.duplicates) st.count) n]
          show bump (List.lookup n ((p.2, amount + 1) :: st.duplicates)) _ = _
          rw [lookup_cons_beq, hb2]
          rfl
        | none =>
          simp only [hl]
          rw [ih (GenState.mk (st.entries ++ [AccessorEntry.mk p.2 c p.1 sh])
            ((p.2, 1) :: st.duplicates) (st.count + 1)) n]
          show bump (List.lookup n ((p.2, 1) :: st.duplicates)) _ = _
          rw [lookup_cons_beq, hb2]
          rfl

lemma run_glyphs_duplicates (face : Face) (sh : Shaping) (cs : List Nat) (n : String) :
    (run_glyphs face sh cs).duplicates.lookup n =
      (if occCount n (survivors face cs) = 0 then none
       else some (occCount n (survivors face cs))) := by
  have h := foldl_duplicates_spec face sh cs ⟨[], [], 0⟩ n
  show (cs.foldl (process_codepoint face sh) ⟨[], [], 0⟩).duplicates.lookup n = _
  rw [h]
  exact bump_none _

lemma process_codepoint_count (face : Face) (sh : Shaping) (st : GenState) (c : Nat) :
    (process_codepoint face sh st c).count + st.entries.length =
      st.count + (process_codepoint face sh st c).entries.length := by
  cases hs : survivor face c with
  | none => rw [process_codepoint_of_none face sh st c hs]
  | some p =>
    rw [process_codepoint_of_some face sh st c p hs]
    cases hl : st.duplicates.lookup p.2 with
    | some amount => simp only [hl]
    | none =>
      simp only [hl, List.length_append, List.length_cons, List.length_nil]
      omega

lemma foldl_count_spec (face : Face) (sh : Shaping) :
    ∀ (cs : List Nat) (st : GenState),
      (cs.foldl (process_codepoint face sh) st).count + st.entries.length =
        st.count + (cs.foldl (process_codepoint face sh) st).entries.length := by
  intro cs
  induction cs with
  | nil => intro st; rfl
  | cons c cs ih =>
    intro st
    have h1 := process_codepoint_count face sh st c
    have h2 := ih (process_codepoint face sh st c)
    rw [List.foldl_cons]
    omega

lemma run_glyphs_count (face : Face) (sh : Shaping) (cs : List Nat) :
    (run_glyphs face sh cs).count = (run_glyphs face sh cs).entries.length := by
  have h := foldl_count_spec face sh cs ⟨[], [], 0⟩
  simpa [run_glyphs] using h

lemma firstWins_not_seen :
    ∀ (l : List (Nat × String × String)) (seen : List String)
      (q : Nat × String × String),
      q ∈ firstWins l seen → seen.contains q.2.2 = false := by
  intro l
  induction l with
  | nil =>
    intro seen q hq
    simp [firstWins] at hq
  | cons x l ih =>
    intro seen q hq
    cases hc : seen.contains x.2.2 with
    | true =>
      rw [firstWins_cons_seen _ _ _ hc] at hq
      exact ih seen q hq
    | false =>
      rw [firstWins_cons_new _ _ _ hc] at hq
      rcases List.mem_cons.mp hq with rfl | hq2
      · exact hc
      · have h2 := ih (x.2.2 :: seen) q hq2
        rw [contains_cons_beq] at h2
        cases hcc : seen.contains q.2.2 with
        | false => rfl
        | true => rw [hcc] at h2; simp at h2

lemma firstWins_keys_nodup :
    ∀ (l : List (Nat × String × String)) (seen : List String),
      ((firstWins l seen).map (fun q => q.2.2)).Nodup := by
  intro l
  induction l with
  | nil => intro seen; simp [firstWins]
  | cons x l ih =>
    intro seen
    cases hc : seen.contains x.2.2 with
    | true =>
      rw [firstWins_cons_seen _ _ _ hc]
      exact ih seen
    | false =>
      rw [firstWins_cons_new _ _ _ hc, List.map_cons]
      refine List.nodup_cons.mpr ⟨?_, ih (x.2.2 :: seen)⟩
      intro hmem
      obtain ⟨q, hq, hqe⟩ := List.mem_map.mp hmem
      have h2 := firstWins_not_seen l (x.2.2 :: seen) q hq
      rw [contains_cons_beq, hqe] at h2
      simp at h2

lemma run_glyphs_names_nodup (face : Face) (sh : Shaping) (cs : List Nat) :
    ((run_glyphs face sh cs).entries.map (fun e => e.name)).Nodup := by
  rw [run_glyphs_entries, List.map_map]
  exact firstWins_keys_nodup (survivors face cs) []

lemma firstWins_sublist :
    ∀ (l : List (Nat × String × String)) (seen : List String),
      (firstWins l seen).Sublist l := by
  intro l
  induction l with
  | nil => intro seen; simp [firstWins]
  | cons x l ih =>
    intro seen
    cases hc : seen.contains x.2.2 with
    | true =>
      rw [firstWins_cons_seen _ _ _ hc]
      exact (ih seen).cons x
    | false =>
      rw [firstWins_cons_new _ _ _ hc]
      exact (ih (x.2.2 :: seen)).cons₂ x

lemma survivors_fst_sublist (face : Face) :
    ∀ cs : List Nat, ((survivors face cs).map (fun q => q.1)).Sublist cs := by
  intro cs
  induction cs with
  | nil => simp [survivors]
  | cons c cs ih =>
    cases hs : survivor face c with
    | none =>
      rw [survivors_cons_none face c cs hs]
      exact ih.cons c
    | some p =>
      rw [survivors_cons_some face c cs p hs, List.map_cons]
      exact ih.cons₂ c

lemma run_glyphs_codepoints (face : Face) (sh : Shaping) (cs : List Nat) :
    (run_glyphs face sh cs).entries.map (fun e => e.codepoint) =
      (firstWins (survivors face cs) []).map (fun q => q.1) := by
  rw [run_glyphs_entries, List.map_map]
  rfl

lemma run_glyphs_codepoints_sublist (face : Face) (sh : Shaping) (cs : List Nat) :
    ((run_glyphs face sh cs).entries.map (fun e => e.codepoint)).Sublist cs := by
  rw [run_glyphs_codepoints]
  exact ((firstWins_sublist (survivors face cs) []).map (fun q => q.1)).trans
    (survivors_fst_sublist face cs)

lemma body_ok_inv (face : Face) (sh : Shaping) (f : Bool) (m : OutputModule)
    (h : body (some face) sh f = .ok m) :
    m = OutputModule.mk (run_glyphs face sh (all_codepoints face)).count
      (run_glyphs face sh (all_codepoints face)).entries
      (if f then some (run_glyphs face sh (all_codepoints face)).entries
       else none) := by
  cases hc : face.cmap with
  | none =>
    simp only [body, hc] at h
    exact Except.noConfusion h
  | some cm =>
    simp only [body, hc, Except.ok.injEq] at h
    exact h.symm

/-- Claim C1: deduplication is first-wins.  The entries of a generation
run are exactly the first-wins selection over the surviving glyphs in
enumeration order; the duplicates counter of a canonical name records its
total number of surviving occurrences (absent when zero, so every later
collision increments it without producing an entry or an error); and a
font whose two glyphs are both named "star" yields exactly one accessor
named star with counter 2 and count 1. -/
theorem c1_first_wins_dedup (face : Face) (cs : List Nat) (sh : Shaping) :
    ((run_glyphs face sh cs).entries =
      (firstWins (survivors face cs) []).map (entryOf sh)) ∧
    (∀ n : String, (run_glyphs face sh cs).duplicates.lookup n =
      (if occCount n (survivors face cs) = 0 then none
       else some (occCount n (survivors face cs)))) ∧
    ((run_glyphs starFace Shaping.Basic [100, 101]).entries.map (fun e => e.name) =
        ["star"] ∧
      (run_glyphs starFace Shaping.Basic [100, 101]).duplicates.lookup "star" =
        some 2 ∧
      (run_glyphs starFace Shaping.Basic [100, 101]).count = 1) :=
  ⟨run_glyphs_entries face sh cs, run_glyphs_duplicates face sh cs, rfl, rfl, rfl⟩

/-- Claim C2 counterexample: a face whose cmap table exists but contains
no Unicode subtable does not fail with MissingCharacterMap; the pass
succeeds and produces an (empty) output module. -/
theorem c2_counterexample :
    nonUnicodeFace.cmap = some (CmapTable.mk [Subtable.mk false [65]]) ∧
    ([Subtable.mk false [65]].all (fun s => !s.is_unicode)) = true ∧
    body (some nonUnicodeFace) Shaping.Basic false =
      .ok (OutputModule.mk 0 [] none) :=
  ⟨rfl, rfl, rfl⟩

/-- Claim C2 (amended): the pass fails fatally with MalformedFont when
the bytes cannot be parsed, and with MissingCharacterMap when the font
has no cmap table at all; in either case no output module is produced.
When a cmap table exists but holds no Unicode subtable, the pass instead
succeeds with a module containing zero accessors. -/
theorem c2_fatal_errors :
    (∀ (sh : Shaping) (f : Bool), body none sh f = .error .MalformedFont) ∧
    (∀ (face : Face) (sh : Shaping) (f : Bool), face.cmap = none →
      body (some face) sh f = .error .MissingCharacterMap) ∧
    (∀ (face : Face) (cm : CmapTable) (sh : Shaping) (f : Bool),
      face.cmap = some cm →
      cm.subtables.find? (fun s => s.is_unicode) = none →
      body (some face) sh f =
        .ok (OutputModule.mk 0 [] (if f then some [] else none))) := by
  refine ⟨fun sh f => rfl, ?_, ?_⟩
  · intro face sh f hc
    simp [body, hc]
  · intro face cm sh f hc hfind
    have hall : all_codepoints face = [] := by
      simp [all_codepoints, hc, hfind]
    cases f <;> simp [body, hc, hall, run_glyphs]

/-- Claim C2 witness: the amended behaviour at a face with no cmap table
and at a face whose only cmap subtable is not Unicode. -/
theorem c2_fatal_errors_witness :
    body (some noCmapFace) Shaping.Basic false = .error .MissingCharacterMap ∧
    body (some nonUnicodeFace) Shaping.Advanced true =
      .ok (OutputModule.mk 0 [] (some [])) :=
  ⟨c2_fatal_errors.2.1 noCmapFace Shaping.Basic false rfl,
   c2_fatal_errors.2.2 nonUnicodeFace (CmapTable.mk [Subtable.mk false [65]])
     Shaping.Advanced true rfl rfl⟩

/-- Claim C6: a glyph whose processed name still contains a disallowed
character is skipped entirely: the loop state is unchanged, so it
produces no accessor entry, does not enter the duplicates registry and
does not increment the count, and no error is raised. -/
theorem c6_illegal_skipped (face : Face) (sh : Shaping) (st : GenState)
    (c glyph_id : Nat) (h1 : face.glyph_index c = some glyph_id)
    (h2 : hasIllegal (processed_name (raw_name_of face glyph_id)) = true) :
    process_codepoint face sh st c = st := by
  apply process_codepoint_of_none
  unfold survivor
  simp [h1, sanitize, h2]

/-- Claim C6 witness: the glyph named "file.txt" (containing the
disallowed character .) leaves the loop state untouched. -/
theorem c6_illegal_skipped_witness :
    process_codepoint fileFace Shaping.Basic ⟨[], [], 0⟩ 7 = ⟨[], [], 0⟩ :=
  c6_illegal_skipped fileFace Shaping.Basic ⟨[], [], 0⟩ 7 7 rfl (by decide)

/-- Claim C7: the COUNT constant of a successfully generated module
equals the number of emitted accessor entries, and the emitted names are
pairwise distinct, so it is also the number of distinct surviving
identifiers. -/
theorem c7_count_matches (parsed : Option Face) (sh : Shaping) (f : Bool)
    (m : OutputModule) (h : body parsed sh f = .ok m) :
    m.count = m.entries.length ∧ (m.entries.map (fun e => e.name)).Nodup := by
  cases parsed with
  | none => exact absurd h (by simp [body])
  | some face =>
    obtain rfl := body_ok_inv face sh f m h
    exact ⟨run_glyphs_count face sh _, run_glyphs_names_nodup face sh _⟩

/-- Claim C7 witness: the module generated from the star face has
COUNT 1, one entry, and distinct names. -/
theorem c7_count_matches_witness :
    (OutputModule.mk 1 [AccessorEntry.mk "star" 100 "star" Shaping.Basic]
        none).count =
      (OutputModule.mk 1 [AccessorEntry.mk "star" 100 "star" Shaping.Basic]
        none).entries.length ∧
    ((OutputModule.mk 1 [AccessorEntry.mk "star" 100 "star" Shaping.Basic]
        none).entries.map (fun e => e.name)).Nodup :=
  c7_count_matches (some starFace) Shaping.Basic false
    (OutputModule.mk 1 [AccessorEntry.mk "star" 100 "star" Shaping.Basic] none) rfl

/-- Claim C8: the emitted accessors appear in the font table's
enumeration order: the emitted codepoint sequence is exactly the
first-wins selection over the survivors in order, and is an
order-preserving subsequence of the enumerated codepoint list. -/
theorem c8_enumeration_order (face : Face) (sh : Shaping) (f : Bool)
    (m : OutputModule) (h : body (some face) sh f = .ok m) :
    (m.entries.map (fun e => e.codepoint) =
      (firstWins (survivors face (all_codepoints face)) []).map (fun q => q.1)) ∧
    (m.entries.map (fun e => e.codepoint)).Sublist (all_codepoints face) := by
  obtain rfl := body_ok_inv face sh f m h
  exact ⟨run_glyphs_codepoints face sh _, run_glyphs_codepoints_sublist face sh _⟩

/-- Claim C8 witness: the star face's emitted codepoints in order. -/
theorem c8_enumeration_order_witness :
    ((OutputModule.mk 1 [AccessorEntry.mk "star" 100 "star" Shaping.Basic]
        none).entries.map (fun e => e.codepoint) =
      (firstWins (survivors starFace (all_codepoints starFace)) []).map
        (fun q => q.1)) ∧
    ((OutputModule.mk 1 [AccessorEntry.mk "star" 100 "star" Shaping.Basic]
        none).entries.map (fun e => e.codepoint)).Sublist
      (all_codepoints starFace) :=
  c8_enumeration_order starFace Shaping.Basic false
    (OutputModule.mk 1 [AccessorEntry.mk "star" 100 "star" Shaping.Basic] none) rfl

/-- Claim C9: a glyph with no native name receives the default raw name
"unnamed" instead of failing, and such glyphs deduplicate like any
others: at most one accessor named "unnamed" survives, and a face with
two unnamed glyphs yields exactly one entry named "unnamed". -/
theorem c9_unnamed_default (face : Face) (cs : List Nat) (sh : Shaping) (gid : Nat) :
    (face.glyph_name gid = none → raw_name_of face gid = "unnamed") ∧
    (((run_glyphs face sh cs).entries.map (fun e => e.name)).count "unnamed" ≤ 1) ∧
    ((run_glyphs unnamedFace Shaping.Basic [65, 66]).entries.map (fun e => e.name) =
      ["unnamed"]) := by
  refine ⟨fun h => by simp [raw_name_of, h], ?_, rfl⟩
  exact List.nodup_iff_count_le_one.mp (run_glyphs_names_nodup face sh cs) "unnamed"

/-- Claim C9 witness: the default at a concrete unnamed glyph. -/
theorem c9_unnamed_default_witness : raw_name_of unnamedFace 0 = "unnamed" :=
  (c9_unnamed_default unnamedFace [] Shaping.Basic 0).1 rfl

lemma foldl_shaping (face : Face) (sh sh' : Shaping) :
    ∀ (cs : List Nat) (st st' : GenState),
      st'.duplicates = st.duplicates → st'.count = st.count →
      st'.entries = st.entries.map (set_shaping sh') →
      (cs.foldl (process_codepoint face sh') st').duplicates =
        (cs.foldl (process_codepoint face sh) st).duplicates ∧
      (cs.foldl (process_codepoint face sh') st').count =
        (cs.foldl (process_codepoint face sh) st).count ∧
      (cs.foldl (process_codepoint face sh') st').entries =
        (cs.foldl (process_codepoint face sh) st).entries.map (set_shaping sh') := by
  intro cs
  induction cs with
  | nil =>
    intro st st' h1 h2 h3
    exact ⟨h1, h2, h3⟩
  | cons c cs ih =>
    intro st st' h1 h2 h3
    rw [List.foldl_cons, List.foldl_cons]
    cases hs : survivor face c with
    | none =>
      rw [process_codepoint_of_none face sh st c hs,
        process_codepoint_of_none face sh' st' c hs]
      exact ih st st' h1 h2 h3
    | some p =>
      rw [process_codepoint_of_some face sh st c p hs,
        process_codepoint_of_some face sh' st' c p hs, h1]
      cases hl : st.duplicates.lookup p.2 with
      | some amount =>
        simp only [hl]
        exact ih _ _ rfl h2 h3
      | none =>
        simp only [hl]
        refine ih _ _ rfl (by rw [h2]) ?_
        rw [h3, List.map_append]
        rfl

lemma body_shaping (parsed : Option Face) (f : Bool) :
    body parsed Shaping.Advanced f =
      (body parsed Shaping.Basic f).map (reshape Shaping.Advanced) := by
  cases parsed with
  | none => rfl
  | some face =>
    cases hc : face.cmap with
    | none => simp [body, hc, Except.map]
    | some cm =>
      obtain ⟨hd, hcnt, hent⟩ := foldl_shaping face Shaping.Basic Shaping.Advanced
        (all_codepoints face) ⟨[], [], 0⟩ ⟨[], [], 0⟩ rfl rfl rfl
      simp only [body, hc]
      cases f <;> simp [Except.map, reshape, run_glyphs, hcnt, hent]

/-- Claim C10: the two entry points differ only in the shaping mode baked
into the accessors (the advanced entry point's output is the basic one
with every entry's shaping replaced by Advanced), and the presence of the
advanced_text sub-module equals the advanced_text feature flag under
either entry point. -/
theorem c10_entry_points (parsed : Option Face) (f : Bool) :
    (generate_icon_advanced_functions parsed f =
      (generate_icon_functions parsed f).map (reshape Shaping.Advanced)) ∧
    (∀ m, generate_icon_functions parsed f = .ok m →
      m.advanced_text.isSome = f) ∧
    (∀ m, generate_icon_advanced_functions parsed f = .ok m →
      m.advanced_text.isSome = f) := by
  refine ⟨body_shaping parsed f, ?_, ?_⟩
  · intro m h
    cases parsed with
    | none => exact absurd h (by simp [generate_icon_functions, body])
    | some face =>
      obtain rfl := body_ok_inv face Shaping.Basic f m h
      cases f <;> rfl
  · intro m h
    cases parsed with
    | none => exact absurd h (by simp [generate_icon_advanced_functions, body])
    | some face =>
      obtain rfl := body_ok_inv face Shaping.Advanced f m h
      cases f <;> rfl

/-- Claim C10 witness: on the star face with the feature flag on, the
basic entry point's advanced_text sub-module is present. -/
theorem c10_entry_points_witness :
    (OutputModule.mk 1 [AccessorEntry.mk "star" 100 "star" Shaping.Basic]
        (some [AccessorEntry.mk "star" 100 "star" Shaping.Basic])).advanced_text.isSome =
      true :=
  (c10_entry_points (some starFace) true).2.1
    (OutputModule.mk 1 [AccessorEntry.mk "star" 100 "star" Shaping.Basic]
      (some [AccessorEntry.mk "star" 100 "star" Shaping.Basic])) rfl

end IcedFonts
